import Mathlib

/-!
Verification of the ymdl download orchestration pipeline (`ymdl.py`).

Strings are modelled as `List Char`; filesystem and network effects are
modelled by explicit state records. Each definition is a shallow embedding
of the correspondingly named Python function.
-/

namespace Ymdl

/-- The single-quote character, written via its code point. -/
def squote : Char := Char.ofNat 39

/-! ## Filename sanitization (`FNAME_TRANS` / `filename`) -/

/-- Embedding of the `FNAME_TRANS` translation table: `"` becomes two single
quotes, backslash and slash become `-`, `*` becomes `_`, and each of
`< > : | ?` is deleted; every other character is kept. -/
def fnameTrans (c : Char) : List Char :=
  if c = '"' then [squote, squote]
  else if c = '\\' ∨ c = '/' then ['-']
  else if c = '*' then ['_']
  else if c = '<' ∨ c = '>' ∨ c = ':' ∨ c = '|' ∨ c = '?' then []
  else [c]

/-- Python's `str.rstrip('. ')`: drop trailing dots and spaces. -/
def rstripDotSpace (s : List Char) : List Char :=
  ((s.reverse).dropWhile (fun c => c == '.' || c == ' ')).reverse

/-- Embedding of `filename`: translate every character through
`FNAME_TRANS`, then strip trailing dots and spaces. -/
def filename (s : List Char) : List Char :=
  rstripDotSpace (s.flatMap fnameTrans)

/-! ## Cover size selection (`COVER_SIZES` / `download_cover`) -/

/-- The fixed ascending tier list `COVER_SIZES`. -/
def coverSizes : List Int :=
  [30, 40, 50, 75, 80, 100, 150, 160, 200, 300, 400, 460, 600, 700, 1000]

/-- The `for n in COVER_SIZES: if size <= n: break` loop: after the loop the
loop variable holds the first element `≥ size`, or the last element when no
element qualifies; `none` when the list is empty (the variable is unbound). -/
def loopSelect : List Int → Int → Option Int
  | [], _ => none
  | n :: rest, size =>
    if size ≤ n then some n
    else
      match rest with
      | [] => some n
      | _ :: _ => loopSelect rest size

/-- Embedding of `download_cover`, reduced to its size-selection result:
`none` means no fetch is performed; `some n` means the cover URL is built
with tier `n` substituted for the size placeholder. -/
def download_cover (size : Int) : Option Int :=
  if size ≤ 0 then none
  else loopSelect coverSizes size

/-! ## Helper lemmas -/

lemma mem_of_mem_rstripDotSpace {c : Char} {l : List Char}
    (h : c ∈ rstripDotSpace l) : c ∈ l := by
  unfold rstripDotSpace at h
  rw [List.mem_reverse] at h
  have hsub := List.dropWhile_sublist (fun c => c == '.' || c == ' ') (l := l.reverse)
  exact List.mem_reverse.mp (hsub.mem h)

lemma head_dropWhile_false (p : Char → Bool) :
    ∀ (l : List Char) (c : Char), (l.dropWhile p).head? = some c → p c = false := by
  intro l
  induction l with
  | nil => simp
  | cons a rest ih =>
    intro c h
    rw [List.dropWhile_cons] at h
    by_cases hp : p a
    · rw [if_pos hp] at h
      exact ih c h
    · rw [if_neg hp] at h
      simp only [List.head?_cons, Option.some.injEq] at h
      rw [← h]
      cases hpa : p a
      · rfl
      · exact absurd hpa hp

lemma getLast_rstripDotSpace {c : Char} {l : List Char}
    (h : (rstripDotSpace l).getLast? = some c) : (c == '.' || c == ' ') = false := by
  unfold rstripDotSpace at h
  rw [List.getLast?_reverse] at h
  exact head_dropWhile_false _ _ _ h

lemma fnameTrans_no_illegal (a c : Char) (hc : c ∈ fnameTrans a) :
    c ∉ ['\\', '/', '*', '<', '>', ':', '|', '?'] := by
  unfold fnameTrans at hc
  split_ifs at hc with h1 h2 h3 h4
  · rcases List.mem_cons.mp hc with rfl | hc
    · decide
    · rcases List.mem_cons.mp hc with rfl | hc
      · decide
      · simp at hc
  · rcases List.mem_cons.mp hc with rfl | hc
    · decide
    · simp at hc
  · rcases List.mem_cons.mp hc with rfl | hc
    · decide
    · simp at hc
  · simp at hc
  · simp only [List.mem_singleton] at hc
    subst hc
    rw [not_or] at h2
    push_neg at h4
    intro hb
    fin_cases hb
    · exact h2.1 rfl
    · exact h2.2 rfl
    · exact h3 rfl
    · exact h4.1 rfl
    · exact h4.2.1 rfl
    · exact h4.2.2.1 rfl
    · exact h4.2.2.2.1 rfl
    · exact h4.2.2.2.2 rfl

/-- C8: `filename` (the sanitizer) returns a string free of the characters
`\ / * < > : | ?`, never ending in `.` or space, where backslash and slash
were mapped to `-`, `*` to `_`, each of `< > : | ?` deleted, and a double
quote to two single quotes. -/
theorem c8_sanitize (s : List Char) :
    (∀ c ∈ filename s, c ∉ ['\\', '/', '*', '<', '>', ':', '|', '?']) ∧
    (filename s).getLast? ≠ some '.' ∧ (filename s).getLast? ≠ some ' ' ∧
    fnameTrans '\\' = ['-'] ∧ fnameTrans '/' = ['-'] ∧ fnameTrans '*' = ['_'] ∧
    fnameTrans '<' = [] ∧ fnameTrans '>' = [] ∧ fnameTrans ':' = [] ∧
    fnameTrans '|' = [] ∧ fnameTrans '?' = [] ∧
    fnameTrans '"' = [squote, squote] := by
  refine ⟨?_, ?_, ?_, by decide, by decide, by decide, by decide, by decide,
    by decide, by decide, by decide, by decide⟩
  · intro c hc
    have hmem := mem_of_mem_rstripDotSpace hc
    rw [List.mem_flatMap] at hmem
    obtain ⟨a, _, ha⟩ := hmem
    exact fnameTrans_no_illegal a c ha
  · intro h
    have := getLast_rstripDotSpace h
    simp at this
  · intro h
    have := getLast_rstripDotSpace h
    simp at this

/-- C8 witness: instantiation at a concrete input. -/
theorem c8_sanitize_witness : '-' ∉ ['\\', '/', '*', '<', '>', ':', '|', '?'] :=
  (c8_sanitize ("a\\b".toList)).1 '-' (by decide)

lemma loopSelect_min (size : Int) :
    ∀ (l : List Int), l.Sorted (· ≤ ·) → (∃ m ∈ l, size ≤ m) →
      ∃ n, loopSelect l size = some n ∧ n ∈ l ∧ size ≤ n ∧
        ∀ m ∈ l, size ≤ m → n ≤ m := by
  intro l
  induction l with
  | nil => intro _ hex; simp at hex
  | cons a rest ih =>
    intro hs hex
    by_cases h : size ≤ a
    · refine ⟨a, by simp [loopSelect, h], by simp, h, ?_⟩
      intro m hm _
      rcases List.mem_cons.mp hm with rfl | hm
      · exact le_refl _
      · exact (List.sorted_cons.mp hs).1 m hm
    · have hex' : ∃ m ∈ rest, size ≤ m := by
        rcases hex with ⟨m, hm, hsm⟩
        rcases List.mem_cons.mp hm with rfl | hm'
        · exact absurd hsm h
        · exact ⟨m, hm', hsm⟩
      obtain ⟨n, hn, hmem, hsn, hmin⟩ := ih (List.sorted_cons.mp hs).2 hex'
      have hrest : rest ≠ [] := by
        rcases hex' with ⟨m, hm, _⟩
        exact List.ne_nil_of_mem hm
      refine ⟨n, ?_, List.mem_cons_of_mem a hmem, hsn, ?_⟩
      · cases rest with
        | nil => exact absurd rfl hrest
        | cons b rb => simpa [loopSelect, h] using hn
      · intro m hm hsm
        rcases List.mem_cons.mp hm with rfl | hm'
        · exact absurd hsm h
        · exact hmin m hm' hsm

lemma loopSelect_all_lt (size : Int) :
    ∀ (l : List Int), l ≠ [] → (∀ m ∈ l, m < size) →
      loopSelect l size = l.getLast? := by
  intro l
  induction l with
  | nil => intro h; exact absurd rfl h
  | cons a rest ih =>
    intro _ hall
    have ha : ¬ size ≤ a := not_le.mpr (hall a (by simp))
    cases rest with
    | nil => simp [loopSelect, ha]
    | cons b rb =>
      have h2 := ih (by simp) (fun m hm => hall m (List.mem_cons_of_mem a hm))
      rw [List.getLast?_cons_cons]
      simpa [loopSelect, ha] using h2

/-- C7: a requested cover size `≤ 0` yields no fetch; a positive size within
range selects the smallest tier of `COVER_SIZES` that is `≥` the request;
a size above the largest tier selects the largest tier (1000). -/
theorem c7_cover_clamp (size : Int) :
    (size ≤ 0 → download_cover size = none) ∧
    (0 < size → size ≤ 1000 →
      ∃ n, download_cover size = some n ∧ n ∈ coverSizes ∧ size ≤ n ∧
        ∀ m ∈ coverSizes, size ≤ m → n ≤ m) ∧
    (1000 < size → download_cover size = some 1000) := by
  refine ⟨?_, ?_, ?_⟩
  · intro h
    simp [download_cover, h]
  · intro h0 h1000
    have hsorted : coverSizes.Sorted (· ≤ ·) := by decide
    obtain ⟨n, hn, hmem, hsn, hmin⟩ :=
      loopSelect_min size coverSizes hsorted ⟨1000, by decide, h1000⟩
    exact ⟨n, by simp [download_cover, not_le.mpr h0, hn], hmem, hsn, hmin⟩
  · intro h
    have hall : ∀ m ∈ coverSizes, m < size := by
      intro m hm
      have : m ≤ 1000 := by fin_cases hm <;> decide
      omega
    have := loopSelect_all_lt size coverSizes (by decide) hall
    have h0 : ¬ size ≤ 0 := by omega
    simp only [download_cover, if_neg h0]
    rw [this]
    decide

/-- C7 witness: requesting 55 selects 75, zero yields no fetch, and a
request above the largest tier selects 1000. -/
theorem c7_cover_clamp_witness :
    download_cover 55 = some 75 ∧ download_cover 0 = none ∧
    download_cover 1001 = some 1000 :=
  ⟨by decide, (c7_cover_clamp 0).1 (by decide),
    (c7_cover_clamp 1001).2.2 (by decide)⟩

/-! ## Track destination naming (`download_track`, extension handling) -/

/-- Python's `track_name.lower().endswith(".mp3")`. -/
def endsMp3 (s : List Char) : Bool :=
  List.isSuffixOf (".mp3".toList) (s.map Char.toLower)

/-- The file-name step of `download_track`: sanitize the expanded name and
append `.mp3` unless the name already ends in `.mp3` case-insensitively. -/
def trackDestName (name : List Char) : List Char :=
  let tn := filename name
  if endsMp3 tn then tn else tn ++ ".mp3".toList

/-- C10: the destination name is the sanitized name with `.mp3` appended
exactly when the sanitized name does not already end in `.mp3`
case-insensitively; the result always ends in `.mp3` up to letter case. -/
theorem c10_mp3_extension (name : List Char) :
    (endsMp3 (filename name) = true → trackDestName name = filename name) ∧
    (endsMp3 (filename name) = false →
      trackDestName name = filename name ++ ".mp3".toList) ∧
    endsMp3 (trackDestName name) = true := by
  refine ⟨?_, ?_, ?_⟩
  · intro h
    simp [trackDestName, h]
  · intro h
    simp [trackDestName, h]
  · by_cases h : endsMp3 (filename name) = true
    · simp [trackDestName, h]
    · rw [Bool.not_eq_true] at h
      simp only [trackDestName, h, Bool.false_eq_true, if_false]
      unfold endsMp3
      rw [List.map_append]
      have hmap : (".mp3".toList.map Char.toLower) = ".mp3".toList := by decide
      rw [hmap]
      exact List.isSuffixOf_iff_suffix.mpr (List.suffix_append _ _)

/-- C10 witness: a name already ending in `.MP3` is kept as-is; a bare name
gets the `.mp3` extension appended. -/
theorem c10_mp3_extension_witness :
    trackDestName ("song.MP3".toList) = filename ("song.MP3".toList) ∧
    trackDestName ("song".toList) = filename ("song".toList) ++ ".mp3".toList :=
  ⟨(c10_mp3_extension ("song.MP3".toList)).1 (by decide),
   (c10_mp3_extension ("song".toList)).2.1 (by decide)⟩

/-! ## Media URL resolver (`get_track_url`) -/

/-- The track-source-info record; each required field may be absent from the
decoded JSON, hence `Option`. Field order: host, timestamp, salt, path. -/
structure SrcInfo where
  host : Option (List Char)
  ts : Option (List Char)
  s : Option (List Char)
  path : Option (List Char)

/-- The fixed signing constant prepended to the hashed byte string. -/
def signConst : List Char := "XGRlBW9FXlekgbPrRHuSiA".toList

/-- Failure kind of `get_track_url`: a missing required field surfaces as a
`YmdlError` ("Can't parse track source info"). -/
inductive TrackUrlError
  | schema
  deriving DecidableEq

/-- Embedding of `get_track_url`. The MD5 primitive is passed in as an
abstract hex-digest function `md5hex`; the embedding records exactly which
byte string is hashed and how the URL is assembled. -/
def get_track_url (md5hex : List Char → List Char) (info : SrcInfo) :
    Except TrackUrlError (List Char) :=
  match info.path, info.s, info.host, info.ts with
  | some p, some salt, some host, some ts =>
    let p' := p.dropWhile (fun c => c == '/')
    let h := md5hex (signConst ++ p' ++ salt)
    Except.ok ("https://".toList ++ host ++ "/get-mp3/".toList ++ h ++
      "/".toList ++ ts ++ "/".toList ++ p')
  | _, _, _, _ => Except.error TrackUrlError.schema

/-- C6: with all fields present, `get_track_url` strips leading separators
from the path, hashes the signing constant, then the normalized path, then
the salt, in that order, and assembles the URL
`https://host/get-mp3/hash/ts/path`; with any required field absent it
fails with a schema error. -/
theorem c6_resolve (md5hex : List Char → List Char) (info : SrcInfo) :
    (∀ p salt host ts, info.path = some p → info.s = some salt →
      info.host = some host → info.ts = some ts →
      get_track_url md5hex info = Except.ok
        ("https://".toList ++ host ++ "/get-mp3/".toList ++
          md5hex (signConst ++ p.dropWhile (fun c => c == '/') ++ salt) ++
          "/".toList ++ ts ++ "/".toList ++
          p.dropWhile (fun c => c == '/'))) ∧
    ((info.path = none ∨ info.s = none ∨ info.host = none ∨ info.ts = none) →
      get_track_url md5hex info = Except.error TrackUrlError.schema) := by
  constructor
  · intro p salt host ts hp hs hh ht
    simp [get_track_url, hp, hs, hh, ht]
  · intro h
    obtain ⟨ho, t, sa, pa⟩ := info
    rcases pa with _ | p <;> rcases sa with _ | salt <;>
      rcases ho with _ | host <;> rcases t with _ | ts <;>
      simp_all [get_track_url]

/-- C6 witness: a concrete resolution and a concrete missing-field failure. -/
theorem c6_resolve_witness :
    get_track_url id ⟨some ("h".toList), some ("9".toList),
        some ("SALT".toList), some ("/p.mp3".toList)⟩ =
      Except.ok ("https://h/get-mp3/XGRlBW9FXlekgbPrRHuSiAp.mp3SALT/9/p.mp3".toList) ∧
    get_track_url id ⟨none, none, none, none⟩ =
      Except.error TrackUrlError.schema := by
  constructor
  · rw [(c6_resolve id _).1 ("/p.mp3".toList) ("SALT".toList) ("h".toList)
      ("9".toList) rfl rfl rfl rfl]
    refine congrArg Except.ok ?_
    decide
  · exact (c6_resolve id _).2 (Or.inl rfl)

/-! ## File downloader (`download_file`)

The filesystem is a path-to-size association list; the remote object is its
full size plus the free disk space of the destination volume. The outcome
records whether a network request was issued, which `Range` header (if any)
accompanied it, which path was opened in which mode, the error that escaped
the function, and the resulting filesystem. -/

inductive OpenMode
  | truncate
  | append
  deriving DecidableEq

/-- The only error that `download_file` can raise past its own handlers:
the `OSError` for insufficient free disk space. -/
inductive DlError
  | capacity
  deriving DecidableEq

structure Remote where
  fullSize : Nat
  free : Nat
  deriving DecidableEq

/-- Look up a path's file size (`os.path.exists` / file contents). -/
def findSize : List (List Char × Nat) → List Char → Option Nat
  | [], _ => none
  | e :: rest, p => if e.1 = p then some e.2 else findSize rest p

/-- Record a write of `n` bytes at path `p`. -/
def setSize (files : List (List Char × Nat)) (p : List Char) (n : Nat) :
    List (List Char × Nat) :=
  (p, n) :: files

structure DlOutcome where
  requested : Bool
  rangeSent : Option (List Char)
  openedPath : Option (List Char)
  mode : Option OpenMode
  error : Option DlError
  files : List (List Char × Nat)
  deriving DecidableEq

/-- Embedding of `download_file`: if the destination exists the function
logs and returns; otherwise it issues a plain GET (no `Range` header),
raises the capacity `OSError` when the advertised size exceeds the free
space, and else opens the destination itself with mode `'wb'` (truncate)
and streams the whole body into it. No `.part` path is ever consulted,
written, or renamed. -/
def download_file (remote : Remote) (save_as : List Char)
    (files : List (List Char × Nat)) : DlOutcome :=
  match findSize files save_as with
  | some _ => ⟨false, none, none, none, none, files⟩
  | none =>
    if remote.free < remote.fullSize then
      ⟨true, none, none, none, some DlError.capacity, files⟩
    else
      ⟨true, none, some save_as, some OpenMode.truncate, none,
        setSize files save_as remote.fullSize⟩

/-- C1 counterexample: with a sibling `.part` file of size 5 present and
the destination absent, `download_file` sends no `Range: bytes=5-` header
and does not open anything in append mode; it opens the destination itself
in truncate mode. -/
theorem c1_resume_counterexample :
    (download_file ⟨10, 100⟩ ("a".toList) [("a.part".toList, 5)]).rangeSent ≠
      some ("bytes=5-".toList) ∧
    (download_file ⟨10, 100⟩ ("a".toList) [("a.part".toList, 5)]).mode ≠
      some OpenMode.append ∧
    (download_file ⟨10, 100⟩ ("a".toList) [("a.part".toList, 5)]).openedPath ≠
      some ("a.part".toList) := by
  decide

/-- C1 amended: `download_file` never resumes: whatever partial files exist,
when the destination is absent and the disk has room, it issues a request
with no `Range` header, opens the destination itself in truncate mode, and
the finalized file at the destination has exactly the remote's full size;
all other paths (including any `.part` sibling) are left untouched. -/
theorem c1_fresh_download (remote : Remote) (save_as : List Char)
    (files : List (List Char × Nat))
    (habsent : findSize files save_as = none)
    (hspace : remote.fullSize ≤ remote.free) :
    (download_file remote save_as files).rangeSent = none ∧
    (download_file remote save_as files).mode = some OpenMode.truncate ∧
    (download_file remote save_as files).openedPath = some save_as ∧
    (download_file remote save_as files).error = none ∧
    findSize (download_file remote save_as files).files save_as =
      some remote.fullSize ∧
    ∀ q, q ≠ save_as →
      findSize (download_file remote save_as files).files q =
        findSize files q := by
  have h2 : ¬ remote.free < remote.fullSize := not_lt.mpr hspace
  refine ⟨?_, ?_, ?_, ?_, ?_, ?_⟩
  · simp [download_file, habsent, h2]
  · simp [download_file, habsent, h2]
  · simp [download_file, habsent, h2]
  · simp [download_file, habsent, h2]
  · simp [download_file, habsent, h2, setSize, findSize]
  · intro q hq
    simp [download_file, habsent, h2, setSize, findSize, Ne.symm hq]

/-- C1 witness: a concrete fresh download next to a stale `.part` file. -/
theorem c1_fresh_download_witness :
    (download_file ⟨10, 100⟩ ("b".toList) [("b.part".toList, 5)]).rangeSent =
      none ∧
    (download_file ⟨10, 100⟩ ("b".toList) [("b.part".toList, 5)]).mode =
      some OpenMode.truncate :=
  ⟨(c1_fresh_download ⟨10, 100⟩ ("b".toList) [("b.part".toList, 5)]
      (by decide) (by decide)).1,
   (c1_fresh_download ⟨10, 100⟩ ("b".toList) [("b.part".toList, 5)]
      (by decide) (by decide)).2.1⟩

/-- C2 counterexample: with the destination already present,
`download_file` raises nothing at all — it returns normally with no error,
no network request and an unchanged filesystem; a second call after a
completed download likewise returns without error. -/
theorem c2_clobber_counterexample :
    (download_file ⟨10, 100⟩ ("a".toList) [("a".toList, 10)]).error = none ∧
    (download_file ⟨10, 100⟩ ("a".toList) [("a".toList, 10)]).requested =
      false ∧
    (download_file ⟨10, 100⟩ ("a".toList) [("a".toList, 10)]).files =
      [("a".toList, 10)] ∧
    (download_file ⟨10, 100⟩ ("a".toList)
        (download_file ⟨10, 100⟩ ("a".toList) []).files).error = none := by
  decide

/-- C2 amended: when a file exists at the destination, `download_file`
returns normally (a logged no-op): no error is raised, zero bytes are read
from the network, nothing is opened, and the filesystem is unmodified; in
particular the second of two identical calls is such a no-op. -/
theorem c2_noclobber_noop (remote : Remote) (save_as : List Char)
    (files : List (List Char × Nat)) (sz : Nat)
    (hex : findSize files save_as = some sz) :
    (download_file remote save_as files).error = none ∧
    (download_file remote save_as files).requested = false ∧
    (download_file remote save_as files).files = files ∧
    (download_file remote save_as files).openedPath = none := by
  simp [download_file, hex]

/-- C2 witness: a concrete pre-existing destination. -/
theorem c2_noclobber_noop_witness :
    (download_file ⟨10, 100⟩ ("a".toList) [("a".toList, 10)]).requested =
      false :=
  (c2_noclobber_noop ⟨10, 100⟩ ("a".toList) [("a".toList, 10)] 10
    (by decide)).2.1

/-! ## Batch loop (`main`)

`main` iterates over the input URLs; each iteration runs `parse_url(url)`
inside a handler that catches `YmdlError` only. Errors reaching the loop
therefore fall into two classes: `YmdlError` (invalid or unsupported URLs
and the schema `KeyError`s that `parse_url` rewraps) which are logged and
skipped, and the `OSError` family (the downloader's disk-space error,
metadata-fetch network failures) which escape the loop to the module
top-level handler, ending the program. -/

inductive PerUrlError
  | ymdl (msg : List Char)
  | os (msg : List Char)
  deriving DecidableEq

/-- Embedding of `main`'s loop over `step` (= `parse_url`): returns the
URLs whose processing was attempted, paired with the error that escaped
the loop, if any. A `ymdl` error is logged and the loop continues; an `os`
error terminates the loop at once. -/
def mainLoop (step : Nat → Except PerUrlError Unit) :
    List Nat → List Nat × Option PerUrlError
  | [] => ([], none)
  | u :: rest =>
    match step u with
    | Except.ok _ =>
      let r := mainLoop step rest
      (u :: r.1, r.2)
    | Except.error (PerUrlError.ymdl _) =>
      let r := mainLoop step rest
      (u :: r.1, r.2)
    | Except.error (PerUrlError.os m) => ([u], some (PerUrlError.os m))

/-- C3 counterexample: when the first of two URLs raises the downloader's
insufficient-disk-space `OSError`, the batch loop does not continue: the
second URL is never attempted and the error escapes the loop. -/
theorem c3_batch_counterexample :
    (mainLoop
        (fun u => if u = 0 then
          Except.error (PerUrlError.os ("no space".toList))
        else Except.ok ()) [0, 1]).1 = [0] ∧
    (mainLoop
        (fun u => if u = 0 then
          Except.error (PerUrlError.os ("no space".toList))
        else Except.ok ()) [0, 1]).1 ≠ [0, 1] ∧
    (mainLoop
        (fun u => if u = 0 then
          Except.error (PerUrlError.os ("no space".toList))
        else Except.ok ()) [0, 1]).2 =
      some (PerUrlError.os ("no space".toList)) := by
  decide

/-- C3 amended: per-URL isolation holds exactly for `YmdlError`s: a batch
whose failures are all `YmdlError`s is processed to the end with no
escaping error; but as soon as one URL raises an `OSError` — such as the
capacity error `download_file` raises when the advertised size exceeds the
free disk space — the loop stops there and the error escapes, aborting
every remaining URL. -/
theorem c3_batch_policy (step : Nat → Except PerUrlError Unit) :
    (∀ urls, (∀ u ∈ urls, ∀ m, step u ≠ Except.error (PerUrlError.os m)) →
      (mainLoop step urls).1 = urls ∧ (mainLoop step urls).2 = none) ∧
    (∀ pre u post m,
      (∀ v ∈ pre, ∀ m', step v ≠ Except.error (PerUrlError.os m')) →
      step u = Except.error (PerUrlError.os m) →
      mainLoop step (pre ++ u :: post) =
        (pre ++ [u], some (PerUrlError.os m))) ∧
    (∀ T free save_as files, findSize files save_as = none → free < T →
      (download_file ⟨T, free⟩ save_as files).error = some DlError.capacity) := by
  refine ⟨?_, ?_, ?_⟩
  · intro urls h
    induction urls with
    | nil => exact ⟨rfl, rfl⟩
    | cons u rest ih =>
      have hu := h u (by simp)
      obtain ⟨h1, h2⟩ := ih (fun v hv m' => h v (List.mem_cons_of_mem u hv) m')
      cases hs : step u with
      | ok _ => simp [mainLoop, hs, h1, h2]
      | error e =>
        cases e with
        | ymdl mm => simp [mainLoop, hs, h1, h2]
        | os mm => exact absurd hs (hu mm)
  · intro pre u post m hpre hu
    induction pre with
    | nil => simp [mainLoop, hu]
    | cons v pr ih =>
      have hv := hpre v (by simp)
      have ih' := ih (fun w hw m' => hpre w (List.mem_cons_of_mem v hw) m')
      cases hs : step v with
      | ok _ => simp [mainLoop, hs, ih']
      | error e =>
        cases e with
        | ymdl mm => simp [mainLoop, hs, ih']
        | os mm => exact absurd hs (hv mm)
  · intro T free save_as files habs hlt
    simp [download_file, habs, hlt]

/-- C3 witness: a batch whose only failures are `YmdlError`s runs to the
end. -/
theorem c3_batch_policy_witness :
    (mainLoop (fun _ => Except.error (PerUrlError.ymdl ("bad url".toList)))
      [0, 1]).1 = [0, 1] :=
  ((c3_batch_policy
      (fun _ => Except.error (PerUrlError.ymdl ("bad url".toList)))).1 [0, 1]
    (by intro u hu m h; simp at h)).1

/-! ## Track numbering (`download_tracks` / `download_album`)

Volumes are represented by their sizes; what matters for numbering is each
track's position, not its payload. -/

/-- The fields `download_tracks` injects into each track record: the
1-based enumeration position, `album['trackCount']` set to the length of
the track list passed in, and — when given — the volume number. -/
structure TrackMeta where
  trackNum : Nat
  trackCount : Nat
  volumeNum : Option Nat
  deriving DecidableEq

/-- Metadata assigned by `download_tracks` to a list of `n` tracks. -/
def trackMetas (n : Nat) (volNum : Option Nat) : List TrackMeta :=
  (List.range n).map (fun i => ⟨i + 1, n, volNum⟩)

/-- The `for n, vol in enumerate(album['volumes'], 1)` loop of
`download_album`, with `k` the enumeration counter. -/
def volumesMetas : List Nat → Nat → List (List TrackMeta)
  | [], _ => []
  | v :: rest, k => trackMetas v (some k) :: volumesMetas rest (k + 1)

/-- Embedding of `download_album`'s numbering: an empty album is a no-op,
a single volume is downloaded with no volume number, and multiple volumes
are enumerated from 1. -/
def download_album : List Nat → List (List TrackMeta)
  | [] => []
  | [v] => [trackMetas v none]
  | volumes => volumesMetas volumes 1

/-- Python's `str(num).zfill(w)`. -/
def zfill (s : List Char) (w : Nat) : List Char :=
  List.replicate (w - s.length) '0' ++ s

/-- The formatted track number of `download_track`:
`str(trackNum).zfill(max(len(str(trackCount)), 2))`. -/
def trackNumStr (num total : Nat) : List Char :=
  zfill (Nat.repr num).toList (max (Nat.repr total).toList.length 2)

lemma trackMetas_getElem (n j : Nat) (vol : Option Nat) (hj : j < n) :
    (trackMetas n vol)[j]? = some ⟨j + 1, n, vol⟩ := by
  simp [trackMetas, List.getElem?_map, List.getElem?_range hj]

lemma volumesMetas_getElem : ∀ (vs : List Nat) (k i : Nat),
    (volumesMetas vs k)[i]? =
      (vs[i]?).map (fun v => trackMetas v (some (k + i))) := by
  intro vs
  induction vs with
  | nil => intro k i; simp [volumesMetas]
  | cons v rest ih =>
    intro k i
    cases i with
    | zero => simp [volumesMetas]
    | succ i' =>
      have harith : k + 1 + i' = k + (i' + 1) := by omega
      simp only [volumesMetas, List.getElem?_cons_succ]
      rw [ih (k + 1) i']
      simp only [harith]

lemma download_album_multi (a b : Nat) (rb : List Nat) :
    download_album (a :: b :: rb) = volumesMetas (a :: b :: rb) 1 := rfl

lemma zfill_length (s : List Char) (w : Nat) :
    (zfill s w).length = max w s.length := by
  simp [zfill]
  omega

lemma repr_len_le_two (n : Nat) (h : n ≤ 99) :
    (Nat.repr n).length ≤ 2 := by
  interval_cases n <;> decide

lemma trackNumStr_len_two (num total : Nat) (h1 : num ≤ 99) (h2 : total ≤ 99) :
    (trackNumStr num total).length = 2 := by
  have hn2 := repr_len_le_two num h1
  have ht2 := repr_len_le_two total h2
  simp [trackNumStr, zfill_length]
  omega

/-- C4 counterexample: for volumes of sizes `[5, 3]`, the first track of
volume 2 carries total-track-count 3 — the size of its own volume — not
the album-wide sum 8 the claim asserts. -/
theorem c4_trackcount_counterexample :
    ((download_album [5, 3])[1]?.bind (fun ms => ms[0]?)).map
        TrackMeta.trackCount = some 3 ∧
    ((download_album [5, 3])[1]?.bind (fun ms => ms[0]?)).map
        TrackMeta.trackCount ≠ some (5 + 3) := by
  decide

/-- C4 amended: in a multi-volume album the orchestrator numbers tracks
1-based and contiguously within each volume (restarting at 1), assigns
each track its containing volume's 1-based number, and sets the
total-track-count field to the size of the containing volume (not the sum
over volumes); the number is zero-padded to width 2 for volumes of at most
99 tracks. -/
theorem c4_volume_numbering (volumes : List Nat) (i j v : Nat)
    (hmulti : 2 ≤ volumes.length) (hv : volumes[i]? = some v) (hj : j < v) :
    ∃ ms, (download_album volumes)[i]? = some ms ∧
      ms[j]? = some ⟨j + 1, v, some (i + 1)⟩ ∧
      (v ≤ 99 → (trackNumStr (j + 1) v).length = 2) := by
  cases volumes with
  | nil => simp at hmulti
  | cons a rest =>
    cases rest with
    | nil => simp at hmulti
    | cons b rb =>
      refine ⟨trackMetas v (some (i + 1)), ?_, ?_, ?_⟩
      · rw [download_album_multi, volumesMetas_getElem, hv]
        simp [Nat.add_comm]
      · exact trackMetas_getElem v j (some (i + 1)) hj
      · intro h99
        exact trackNumStr_len_two (j + 1) v (by omega) (by omega)

/-- C4 witness: volumes `[5, 3]` — volume 2's first track is numbered 1,
carries volume number 2 and total-track-count 3, padded to width 2. -/
theorem c4_volume_numbering_witness :
    ∃ ms, (download_album [5, 3])[1]? = some ms ∧
      ms[0]? = some ⟨1, 3, some 2⟩ ∧
      ((3 : Nat) ≤ 99 → (trackNumStr 1 3).length = 2) :=
  c4_volume_numbering [5, 3] 1 0 3 (by decide) (by decide) (by decide)

/-! ## Artist download (`download_artist`) -/

/-- Artist metadata: the album-id lists and the flat track-id list, each
possibly absent. -/
structure Artist where
  albumIds : Option (List (List Char))
  alsoAlbumIds : Option (List (List Char))
  trackIds : Option (List (List Char))
  deriving DecidableEq

/-- The list of album ids that `download_artist` hands to
`download_albums`, which fetches each list element by id. With `--also`
set and the alternate list present the source executes
`download_albums(['alsoAlbumIds'], ...)` — the literal one-element list
containing the string `'alsoAlbumIds'`, not the metadata field; without
`--also` it passes the primary `albumIds` list. `[]` stands for branches
that download no albums. -/
def download_artist_albumIds : Bool → Artist → List (List Char)
  | true, artist =>
    match artist.alsoAlbumIds with
    | some _ => ["alsoAlbumIds".toList]
    | none => []
  | false, artist =>
    match artist.albumIds with
    | some ids => ids
    | none => []

/-- C5: with `--also` set and an alternate list `["101", "102"]` present,
the code asks `download_albums` for the single literal id
`"alsoAlbumIds"` instead of the ids of the alternate list — the
one-character-level slip `['alsoAlbumIds']` vs `artist['alsoAlbumIds']`.
The help text ("download other albums associated with artist ... instead
of main albums") documents the intended behavior, so this is a code bug. -/
theorem c5_also_flag_bug :
    download_artist_albumIds true
        ⟨some ["1".toList], some ["101".toList, "102".toList], none⟩ =
      ["alsoAlbumIds".toList] ∧
    download_artist_albumIds true
        ⟨some ["1".toList], some ["101".toList, "102".toList], none⟩ ≠
      ["101".toList, "102".toList] ∧
    download_artist_albumIds false
        ⟨some ["1".toList], some ["101".toList, "102".toList], none⟩ =
      ["1".toList] := by
  decide

/-! ## Playlist download (`download_playlist` / `save_m3u`) -/

/-- A playlist entry: the error marker plus the fields `make_extinf`
reads. -/
structure PlTrack where
  err : Bool
  durationMs : Nat
  artists : List Char
  title : List Char
  deriving DecidableEq

/-- Embedding of `make_extinf`: one `#EXTINF` entry, duration in seconds,
`artists - title`, then the file path. -/
def make_extinf (t : PlTrack) (filePath : List Char) : List Char :=
  "#EXTINF:".toList ++ (Nat.repr (t.durationMs / 1000)).toList ++ [','] ++
    t.artists ++ " - ".toList ++ t.title ++ ['\n'] ++ filePath ++ ['\n']

/-- Embedding of `save_m3u`: nothing is written when there are no entries;
otherwise the file is the `#EXTM3U` header followed by the entries. -/
def save_m3u (extinfs : List (List Char)) : Option (List (List Char)) :=
  if extinfs.isEmpty then none
  else some ("#EXTM3U\n".toList :: extinfs)

/-- The playlist entries kept after dropping error-marked ones. -/
def keptTracks (plsTracks : List PlTrack) : List PlTrack :=
  plsTracks.filter (fun t => !t.err)

/-- `for n, track in enumerate(tracks, 1)` of `download_tracks`: each kept
track paired with its 1-based position. -/
def numberedTracks (kept : List PlTrack) : List (PlTrack × Nat) :=
  kept.zip ((List.range kept.length).map (fun i => i + 1))

/-- What `download_playlist` produces: the tracks downloaded (in order,
with their assigned numbers) and the M3U file, if one is written. -/
structure PlaylistResult where
  downloaded : List (PlTrack × Nat)
  m3uFile : Option (List (List Char))
  deriving DecidableEq

/-- Embedding of `download_playlist` (with the `download_tracks` call it
makes): error-marked entries are filtered out; an empty remainder logs and
does nothing; otherwise the remaining tracks are downloaded sequentially
with 1-based numbering, `nameOf` standing for the naming pipeline of
`download_track`, and the M3U file is saved only when the flag is set. -/
def download_playlist (m3u : Bool) (nameOf : PlTrack → Nat → List Char)
    (plsTracks : List PlTrack) : Option PlaylistResult :=
  if (keptTracks plsTracks).length = 0 then none
  else
    some ⟨numberedTracks (keptTracks plsTracks),
      if m3u then
        save_m3u ((numberedTracks (keptTracks plsTracks)).map
          (fun tn => make_extinf tn.1 (nameOf tn.1 tn.2)))
      else none⟩

lemma numberedTracks_fst (kept : List PlTrack) :
    (numberedTracks kept).map Prod.fst = kept :=
  List.map_fst_zip _ _ (by simp)

lemma numberedTracks_snd (kept : List PlTrack) :
    (numberedTracks kept).map Prod.snd =
      (List.range kept.length).map (fun i => i + 1) :=
  List.map_snd_zip _ _ (by simp)

lemma numberedTracks_length (kept : List PlTrack) :
    (numberedTracks kept).length = kept.length := by
  simp [numberedTracks]

lemma make_extinf_take (t : PlTrack) (p : List Char) :
    (make_extinf t p).take 8 = "#EXTINF:".toList := by
  have h8 : ("#EXTINF:".toList).length = 8 := by decide
  simp only [make_extinf, List.append_assoc]
  rw [← h8]
  exact List.take_left _ _

/-- C9: `download_playlist` drops error-marked entries before any
download; an empty remainder is a no-op; otherwise the remaining tracks
are downloaded in their original relative order with contiguous 1-based
numbers, and with M3U generation enabled the written file is the header
followed by exactly one `#EXTINF` entry per downloaded track (written only
when at least one entry exists, which holds whenever anything was
downloaded). -/
theorem c9_playlist_flow (m3u : Bool) (nameOf : PlTrack → Nat → List Char)
    (plsTracks : List PlTrack) :
    (keptTracks plsTracks = [] →
      download_playlist m3u nameOf plsTracks = none) ∧
    (∀ r, download_playlist m3u nameOf plsTracks = some r →
      r.downloaded.map Prod.fst = keptTracks plsTracks ∧
      (r.downloaded.map Prod.fst).Sublist plsTracks ∧
      (∀ t ∈ r.downloaded.map Prod.fst, t.err = false) ∧
      r.downloaded.map Prod.snd =
        (List.range (keptTracks plsTracks).length).map (fun i => i + 1) ∧
      r.downloaded ≠ [] ∧
      (m3u = false → r.m3uFile = none) ∧
      (m3u = true →
        ∃ entries, r.m3uFile = some ("#EXTM3U\n".toList :: entries) ∧
          entries.length = r.downloaded.length ∧
          ∀ e ∈ entries, e.take 8 = "#EXTINF:".toList)) := by
  constructor
  · intro h
    simp [download_playlist, h]
  · intro r hr
    unfold download_playlist at hr
    by_cases h0 : (keptTracks plsTracks).length = 0
    · rw [if_pos h0] at hr
      simp at hr
    · rw [if_neg h0] at hr
      injection hr with hr
      subst hr
      refine ⟨numberedTracks_fst _, ?_, ?_, numberedTracks_snd _, ?_, ?_, ?_⟩
      · rw [numberedTracks_fst]
        exact List.filter_sublist _
      · rw [numberedTracks_fst]
        intro t ht
        simp only [keptTracks, List.mem_filter, Bool.not_eq_true'] at ht
        exact ht.2
      · intro hnil
        apply h0
        have hlen := congrArg List.length hnil
        rw [numberedTracks_length] at hlen
        simpa using hlen
      · intro hm
        simp [hm]
      · intro hm
        subst hm
        cases hk : numberedTracks (keptTracks plsTracks) with
        | nil =>
          exfalso
          apply h0
          have hlen := congrArg List.length hk
          rw [numberedTracks_length] at hlen
          simpa using hlen
        | cons x xs =>
          refine ⟨(x :: xs).map (fun tn => make_extinf tn.1 (nameOf tn.1 tn.2)),
            ?_, ?_, ?_⟩
          · simp [save_m3u]
          · simp
          · intro e he
            obtain ⟨tn, _, rfl⟩ := List.mem_map.mp he
            exact make_extinf_take _ _

/-- Demo playlist for the C9 witness: three tracks, the middle one
error-marked. -/
def c9demo : List PlTrack :=
  [⟨false, 1000, "a".toList, "x".toList⟩,
   ⟨true, 0, "b".toList, "y".toList⟩,
   ⟨false, 3000, "c".toList, "z".toList⟩]

/-- C9 witness: the 3-track playlist with 1 error-marked entry downloads
exactly the 2 good tracks numbered 1, 2 and yields an M3U file with
exactly 2 `#EXTINF` entries. -/
theorem c9_playlist_flow_witness :
    ∃ r, download_playlist true (fun t _ => t.title) c9demo = some r ∧
      r.downloaded.map Prod.fst = keptTracks c9demo ∧
      r.downloaded.map Prod.snd = [1, 2] ∧
      ∃ entries, r.m3uFile = some ("#EXTM3U\n".toList :: entries) ∧
        entries.length = 2 := by
  cases h : download_playlist true (fun t _ => t.title) c9demo with
  | none =>
    exfalso
    have hne : download_playlist true (fun t _ => t.title) c9demo ≠ none := by
      decide
    exact hne h
  | some r =>
    obtain ⟨h1, _, _, h4, _, _, h7⟩ :=
      (c9_playlist_flow true (fun t _ => t.title) c9demo).2 r h
    refine ⟨r, rfl, h1, ?_, ?_⟩
    · rw [h4]
      decide
    · obtain ⟨entries, he, hlen, _⟩ := h7 rfl
      refine ⟨entries, he, ?_⟩
      rw [hlen]
      have hd := congrArg List.length h1
      simp only [List.length_map] at hd
      rw [hd]
      decide

end Ymdl
